import Mathlib

set_option maxRecDepth 200000

/-!
Verification of the slicecap pcap slicer (`slicecap.py`) against its
natural-language specification.  The Python source is shallowly embedded:
files are `List Nat` of byte values, machine integers are `Nat`/`Int` with
explicit `% 2^w` where the source's `struct` formats impose a width, and
fallible operations return `Except`/`Option`.
-/

/-- Byte order marker of a pcap file.  The source stores the `struct`
prefix character: `!` (network / big-endian) is `big`, `<` is `little`. -/
inductive ByteOrder where
  | big : ByteOrder
  | little : ByteOrder
deriving DecidableEq

/-- Decode an unsigned 16-bit value from two bytes in the given byte order
(`struct` format `H`). -/
def dec16 : ByteOrder → Nat → Nat → Nat
  | .big, b0, b1 => b0 * 256 + b1
  | .little, b0, b1 => b1 * 256 + b0

/-- Encode an unsigned 16-bit value to two bytes in the given byte order
(`struct` format `H`; values are reduced mod 2^16, which agrees with
`struct.pack` on every in-range value). -/
def enc16 : ByteOrder → Nat → List Nat
  | .big, x => [x / 256 % 256, x % 256]
  | .little, x => [x % 256, x / 256 % 256]

/-- Decode an unsigned 32-bit value from four bytes in stream order in the
given byte order (`struct` format `L`). -/
def dec32 : ByteOrder → Nat → Nat → Nat → Nat → Nat
  | .big, b0, b1, b2, b3 => b0 * 16777216 + b1 * 65536 + b2 * 256 + b3
  | .little, b0, b1, b2, b3 => b3 * 16777216 + b2 * 65536 + b1 * 256 + b0

/-- Encode an unsigned 32-bit value to four bytes in stream order in the
given byte order (`struct` format `L`). -/
def enc32 : ByteOrder → Nat → List Nat
  | .big, x => [x / 16777216 % 256, x / 65536 % 256, x / 256 % 256, x % 256]
  | .little, x => [x % 256, x / 256 % 256, x / 65536 % 256, x / 16777216 % 256]

/-- Interpret an unsigned 32-bit value as a signed 32-bit value
(two's complement), as `struct` format `l` does on decode. -/
def decSigned32 (u : Nat) : Int :=
  if u < 2147483648 then (u : Int) else (u : Int) - 4294967296

/-- Two's-complement representation of a signed 32-bit value as an
unsigned 32-bit value, as `struct` format `l` does on encode. -/
def encSigned32 (z : Int) : Nat :=
  (z % 4294967296).toNat

/-- Failure modes of `PcapFileHeader.unpack_header`: the source raises
`struct.error` on short data and `ValueError` on a bad magic value or an
unsupported version. -/
inductive HdrErr where
  | shortData : HdrErr
  | badMagic : HdrErr
  | badVersion : HdrErr
deriving DecidableEq

/-- The pcap global file header, mirroring class `PcapFileHeader` of the
source: the raw 4-byte magic tuple, the byte order derived from it, and
the six metadata fields of `struct` format `2Hl3L`. -/
structure PcapFileHeader where
  magic : Nat × Nat × Nat × Nat
  byte_order : ByteOrder
  version_major : Nat
  version_minor : Nat
  thiszone : Int
  sigfigs : Nat
  snaplen : Nat
  network : Nat
deriving DecidableEq

/-- The big-endian magic tuple `a1 b2 c3 d4`. -/
def magicBig : Nat × Nat × Nat × Nat := (0xa1, 0xb2, 0xc3, 0xd4)

/-- The little-endian magic tuple `d4 c3 b2 a1`. -/
def magicLittle : Nat × Nat × Nat × Nat := (0xd4, 0xc3, 0xb2, 0xa1)

/-- `PcapFileHeader.unpack_header` of the source: determine the byte order
from the first four bytes, decode the six metadata fields, reject any
version other than 2.4, and substitute 9000 for a declared snaplen of 0. -/
def PcapFileHeader.unpack_header (data : List Nat) : Except HdrErr PcapFileHeader :=
  if data.length < 4 then .error .shortData
  else
    let m := (data.getD 0 0, data.getD 1 0, data.getD 2 0, data.getD 3 0)
    if m = magicBig ∨ m = magicLittle then
      let bo := if m = magicBig then ByteOrder.big else ByteOrder.little
      if data.length = 24 then
        let vmaj := dec16 bo (data.getD 4 0) (data.getD 5 0)
        let vmin := dec16 bo (data.getD 6 0) (data.getD 7 0)
        let tz := decSigned32 (dec32 bo (data.getD 8 0) (data.getD 9 0) (data.getD 10 0) (data.getD 11 0))
        let sf := dec32 bo (data.getD 12 0) (data.getD 13 0) (data.getD 14 0) (data.getD 15 0)
        let sl := dec32 bo (data.getD 16 0) (data.getD 17 0) (data.getD 18 0) (data.getD 19 0)
        let nw := dec32 bo (data.getD 20 0) (data.getD 21 0) (data.getD 22 0) (data.getD 23 0)
        if vmaj = 2 ∧ vmin = 4 then
          .ok { magic := m, byte_order := bo, version_major := vmaj, version_minor := vmin,
                thiszone := tz, sigfigs := sf,
                snaplen := if sl = 0 then 9000 else sl, network := nw }
        else .error .badVersion
      else .error .shortData
    else .error .badMagic

/-- `PcapFileHeader.pack_header` of the source: re-emit the stored magic
bytes verbatim followed by the six fields in the stored byte order
(`struct` format `4B2Hl3L`; the `4B` part is byte-order independent). -/
def PcapFileHeader.pack_header (h : PcapFileHeader) : List Nat :=
  [h.magic.1, h.magic.2.1, h.magic.2.2.1, h.magic.2.2.2]
    ++ enc16 h.byte_order h.version_major
    ++ enc16 h.byte_order h.version_minor
    ++ enc32 h.byte_order (encSigned32 h.thiszone)
    ++ enc32 h.byte_order h.sigfigs
    ++ enc32 h.byte_order h.snaplen
    ++ enc32 h.byte_order h.network

/-- The pcap per-record header, mirroring class `PcapPkthdr` of the
source: four unsigned 32-bit fields. -/
structure PcapPkthdr where
  tv_sec : Nat
  tv_usec : Nat
  caplen : Nat
  len : Nat
deriving DecidableEq

/-- `PcapPkthdr.unpack_header` of the source: decode `struct` format `4L`
in the given byte order.  `struct.unpack` demands exactly 16 bytes. -/
def PcapPkthdr.unpack_header (data : List Nat) (byte_order : ByteOrder) : Option PcapPkthdr :=
  if data.length = 16 then
    some { tv_sec := dec32 byte_order (data.getD 0 0) (data.getD 1 0) (data.getD 2 0) (data.getD 3 0),
           tv_usec := dec32 byte_order (data.getD 4 0) (data.getD 5 0) (data.getD 6 0) (data.getD 7 0),
           caplen := dec32 byte_order (data.getD 8 0) (data.getD 9 0) (data.getD 10 0) (data.getD 11 0),
           len := dec32 byte_order (data.getD 12 0) (data.getD 13 0) (data.getD 14 0) (data.getD 15 0) }
  else none

/-- Error raised by the boundary scan of `_guess_offset_of_slice_id`: the
source prints `could not find pcap pkthdr at slice_id=...` and raises
`ValueError`, so the error names the slice whose position was requested. -/
structure BoundaryNotFound where
  sliceId : Nat
deriving DecidableEq

/-- Acceptance predicate of one candidate sub-offset `d` of the scan
window: the 16 bytes at `d` decode to a record header that passes the
three checks of `_guess_offset_of_slice_id` (timestamp not below the
anchor, forward gap at most `maxgap`, `caplen` at most `snaplen`). -/
def acceptsAt (bo : ByteOrder) (snaplen : Nat) (maxgap : Int) (ancSec : Nat)
    (data : List Nat) (d : Nat) : Bool :=
  match PcapPkthdr.unpack_header ((data.drop d).take 16) bo with
  | none => false
  | some p =>
      decide (ancSec ≤ p.tv_sec) && decide ((p.tv_sec : Int) - (ancSec : Int) ≤ maxgap)
        && decide (p.caplen ≤ snaplen)

/-- The candidate scan loop of `_guess_offset_of_slice_id`, threading the
time-anchor state exactly as the source does: the anchor is written only
in the accepting branch.  `rest` is the not-yet-scanned suffix of the
window and `d` the absolute sub-offset of its head; the loop runs while
at least 17 bytes remain, matching `range(len(data) - 16)`.  Returns the
accepted sub-offset (or `none`) together with the anchor state after the
call. -/
def scanWindow (bo : ByteOrder) (snaplen : Nat) (maxgap : Int) (ancSec ancUsec : Nat) :
    List Nat → Nat → Option Nat × (Nat × Nat)
  | [], _ => (none, (ancSec, ancUsec))
  | b :: rest, d =>
    if (b :: rest).length < 17 then (none, (ancSec, ancUsec))
    else
      match PcapPkthdr.unpack_header ((b :: rest).take 16) bo with
      | none => (none, (ancSec, ancUsec))
      | some p =>
        if p.tv_sec < ancSec then
          scanWindow bo snaplen maxgap ancSec ancUsec rest (d + 1)
        else if (p.tv_sec : Int) - (ancSec : Int) > maxgap then
          scanWindow bo snaplen maxgap ancSec ancUsec rest (d + 1)
        else if snaplen < p.caplen then
          scanWindow bo snaplen maxgap ancSec ancUsec rest (d + 1)
        else (some d, (p.tv_sec, p.tv_usec))

/-- The window read at a guessed offset `g`: `pfo.read(snaplen + 1000)`
after seeking to `g`. -/
def Slicecap.windowOf (fh : PcapFileHeader) (file : List Nat) (g : Nat) : List Nat :=
  (file.drop g).take (fh.snaplen + 1000)

/-- `Slicecap._guess_offset_of_slice_id` of the source: seek to
`slice_id * slice_size`, read a window of `snaplen + 1000` bytes, scan it
byte by byte, and return the absolute offset of the first accepted
candidate together with the updated time anchor, or the boundary-not-found
error. -/
def Slicecap.guess_offset_of_slice_id (fh : PcapFileHeader) (maxgap : Int)
    (file : List Nat) (sliceSize : Nat) (anc : Nat × Nat) (sliceId : Nat) :
    Except BoundaryNotFound (Nat × (Nat × Nat)) :=
  let g := sliceId * sliceSize
  match scanWindow fh.byte_order fh.snaplen maxgap anc.1 anc.2 (Slicecap.windowOf fh file g) 0 with
  | (some d, anc') => .ok (g + d, anc')
  | (none, _) => .error ⟨sliceId⟩

/-- The offset-collecting loop of `guess_slice_offsets_and_sizes`:
locate `n` consecutive slices starting at `sliceId`, threading the time
anchor through the calls in index order.  Returns the offsets in order
together with the final anchor. -/
def Slicecap.guessLoop (fh : PcapFileHeader) (maxgap : Int) (file : List Nat)
    (sliceSize : Nat) : Nat → Nat → Nat × Nat →
    Except BoundaryNotFound (List Nat × (Nat × Nat))
  | 0, _, anc => .ok ([], anc)
  | n + 1, sliceId, anc =>
    match Slicecap.guess_offset_of_slice_id fh maxgap file sliceSize anc sliceId with
    | .error e => .error e
    | .ok (off, anc') =>
      match Slicecap.guessLoop fh maxgap file sliceSize n (sliceId + 1) anc' with
      | .error e => .error e
      | .ok (offs, ancF) => .ok (off :: offs, ancF)

/-- The size derivation of `guess_slice_offsets_and_sizes`: for each
offset but the last, the difference to the next offset; for the last, the
remaining tail of the file.  Sizes are Python ints, hence `Int`. -/
def Slicecap.sizesFrom (total : Nat) : List Nat → List Int
  | [] => []
  | [a] => [(total : Int) - (a : Int)]
  | a :: b :: rest => ((b : Int) - (a : Int)) :: Slicecap.sizesFrom total (b :: rest)

/-- Failure modes of the planning pipeline (`__init__` followed by
`guess_slice_offsets_and_sizes`).  The source raises builtin Python
exceptions: `ZeroDivisionError` from `size // nslice`, `struct.error` /
`ValueError` from header parsing, `ValueError` from the boundary scan,
and `IndexError` from `self._offsets[-1]` on an empty offset list. -/
inductive RunErr where
  | zeroDiv : RunErr
  | fileHeader : HdrErr → RunErr
  | shortRecord : RunErr
  | boundary : Nat → RunErr
  | indexError : RunErr
deriving DecidableEq

/-- `Slicecap._unpack_file_header` of the source: parse the global header
from the first 24 bytes of the file, then decode a record header from the
next 16 bytes and seed the time anchor with its timestamp. -/
def Slicecap.unpack_file_header (file : List Nat) :
    Except RunErr (PcapFileHeader × (Nat × Nat)) :=
  match PcapFileHeader.unpack_header (file.take 24) with
  | .error e => .error (.fileHeader e)
  | .ok fh =>
    match PcapPkthdr.unpack_header ((file.drop 24).take 16) fh.byte_order with
    | none => .error .shortRecord
    | some p => .ok (fh, (p.tv_sec, p.tv_usec))

/-- `Slicecap.guess_slice_offsets_and_sizes` of the source: locate the
`n` slice offsets in index order with `slice_size = size // nslice`, then
derive the sizes.  With an empty offset list the source's final
`self._offsets[-1]` raises `IndexError`. -/
def Slicecap.guess_slice_offsets_and_sizes (fh : PcapFileHeader) (maxgap : Int)
    (file : List Nat) (n : Nat) (anc0 : Nat × Nat) :
    Except RunErr (List Nat × List Int) :=
  match Slicecap.guessLoop fh maxgap file (file.length / n) n 0 anc0 with
  | .error e => .error (.boundary e.sliceId)
  | .ok (offs, _) =>
    match offs with
    | [] => .error .indexError
    | _ :: _ => .ok (offs, Slicecap.sizesFrom file.length offs)

/-- The planning pipeline as run by `main`: construct the `Slicecap`
object (`size // nslice` first — `ZeroDivisionError` when `nslice = 0` —
then `_unpack_file_header`), then `guess_slice_offsets_and_sizes`.  A
negative `nslice` makes `range(nslice)` empty, so the offset list stays
empty and the final size computation raises `IndexError`. -/
def Slicecap.plan (file : List Nat) (nslice : Int) (maxgap : Int) :
    Except RunErr (List Nat × List Int) :=
  if nslice = 0 then .error .zeroDiv
  else
    match Slicecap.unpack_file_header file with
    | .error e => .error e
    | .ok (fh, anc0) =>
      Slicecap.guess_slice_offsets_and_sizes fh maxgap file nslice.toNat anc0

/-- The chunked read loop of `_call_subcommand_for_slice_id`: read the
fragment in chunks of at most 8192 bytes, decrementing the remaining
count by the number of bytes actually read.  The source loop has no
explicit fuel; here `fuel` bounds the iterations (the loop terminates in
the source exactly when every read makes progress, which holds whenever
`pos + left` does not run past the end of the file, and `fuel = left`
then suffices). -/
def Slicecap.readChunks (file : List Nat) : Nat → Nat → Nat → List Nat
  | 0, _, _ => []
  | fuel + 1, pos, left =>
    if left = 0 then []
    else
      let chunk := (file.drop pos).take (if 8192 < left then 8192 else left)
      chunk ++ Slicecap.readChunks file fuel (pos + chunk.length) (left - chunk.length)

/-- The byte stream written to the spawned command's stdin by
`_call_subcommand_for_slice_id`: the packed global file header followed
by the chunked read of `size` bytes starting at `offset`. -/
def Slicecap.call_subcommand_stream (fh : PcapFileHeader) (file : List Nat)
    (offset size : Nat) : List Nat :=
  fh.pack_header ++ Slicecap.readChunks file size offset size

/-- The literal opening brace character. -/
def openBrace : Char := Char.ofNat 123

/-- The literal closing brace character. -/
def closeBrace : Char := Char.ofNat 125

/-- Read a replacement-field name up to the closing brace, returning the
name and the remaining characters; `none` when the brace is never
closed (Python raises `ValueError: expected closing brace`). -/
def parseField : List Char → Option (List Char × List Char)
  | [] => none
  | c :: rest =>
    if c = closeBrace then some ([], rest)
    else (parseField rest).map (fun nr => (c :: nr.1, nr.2))

/-- The keyword arguments the source passes to `str.format`: `OFFSET`,
`SIZE` and `SLICE_ID`.  Any other field name raises `KeyError`, hence
`none`. -/
def lookupField (off : Nat) (sz : Int) (sliceId : Nat) (name : List Char) : Option String :=
  if name = "OFFSET".data then some (toString off)
  else if name = "SIZE".data then some (toString sz)
  else if name = "SLICE_ID".data then some (toString sliceId)
  else none

/-- The replacement scan of Python `str.format` restricted to the subset
the source exercises: plain text, `\x7b\x7b` / `\x7d\x7d` escapes, and
named replacement fields without format specs.  `fuel` bounds the
recursion; `fuel = length + 1` always suffices since every step consumes
at least one character. -/
def formatAux (off : Nat) (sz : Int) (sliceId : Nat) : Nat → List Char → Option (List Char)
  | 0, cs => match cs with | [] => some [] | _ :: _ => none
  | _ + 1, [] => some []
  | fuel + 1, c :: rest =>
    if c = openBrace then
      match rest with
      | [] => none
      | c2 :: rest2 =>
        if c2 = openBrace then (formatAux off sz sliceId fuel rest2).map (openBrace :: ·)
        else
          match parseField rest with
          | none => none
          | some (name, rest') =>
            match lookupField off sz sliceId name with
            | none => none
            | some v => (formatAux off sz sliceId fuel rest').map (v.data ++ ·)
    else if c = closeBrace then
      match rest with
      | [] => none
      | c2 :: rest2 =>
        if c2 = closeBrace then (formatAux off sz sliceId fuel rest2).map (closeBrace :: ·)
        else none
    else (formatAux off sz sliceId fuel rest).map (c :: ·)

/-- `w.format(OFFSET=..., SIZE=..., SLICE_ID=...)` as applied to each
command token by `_call_subcommand_for_slice_id`. -/
def Slicecap.strFormat (off : Nat) (sz : Int) (sliceId : Nat) (w : String) : Option String :=
  (formatAux off sz sliceId (w.data.length + 1) w.data).map (fun cs => String.mk cs)

/-- The command line built by `_call_subcommand_for_slice_id`: format
every token of the user template, then join with single spaces
(`' '.join(...)`); a failing token aborts with the Python exception. -/
def Slicecap.build_subcmd (words : List String) (off : Nat) (sz : Int) (sliceId : Nat) :
    Option String :=
  (words.mapM (Slicecap.strFormat off sz sliceId)).map (String.intercalate " ")

/-- Formalisation of the spec hypothesis wording of a file `containing at
least N structurally valid records spaced within maxgap of each other`:
walk the record chain starting right after the 24-byte global header,
counting records whose `caplen` is at most `snaplen` and whose timestamp
does not decrease and does not jump by more than `maxgap` relative to the
previous record of the chain. -/
def recordChainAux (file : List Nat) (bo : ByteOrder) (snaplen : Nat) (maxgap : Int) :
    Nat → Nat → Option Nat → Nat
  | 0, _, _ => 0
  | fuel + 1, pos, prev =>
    if file.length < pos + 16 then 0
    else
      match PcapPkthdr.unpack_header ((file.drop pos).take 16) bo with
      | none => 0
      | some p =>
        if decide (p.caplen ≤ snaplen) &&
           (match prev with
            | none => true
            | some s => decide (s ≤ p.tv_sec) && decide ((p.tv_sec : Int) - (s : Int) ≤ maxgap)) then
          1 + recordChainAux file bo snaplen maxgap fuel (pos + 16 + p.caplen) (some p.tv_sec)
        else 0

/-- Number of structurally valid, maxgap-spaced records at the head of
the record chain of `file` (spec-side notion used to state the planner
claim's hypothesis). -/
def recordChainCount (file : List Nat) (bo : ByteOrder) (snaplen : Nat) (maxgap : Int) : Nat :=
  recordChainAux file bo snaplen maxgap file.length 24 none

/-- Spec-side description of the planner's offset sequence: starting from
anchor `anc` at slice index `sliceId`, each offset is the boundary
locator's result at its own index, invoked strictly in index order with
the anchor threaded from one call to the next; `ancF` is the anchor after
the last call. -/
inductive PlanChain (fh : PcapFileHeader) (maxgap : Int) (file : List Nat) (sliceSize : Nat) :
    Nat → Nat × Nat → List Nat → Nat × Nat → Prop
  | nil (sliceId : Nat) (anc : Nat × Nat) : PlanChain fh maxgap file sliceSize sliceId anc [] anc
  | cons (sliceId : Nat) (anc : Nat × Nat) (off : Nat) (anc' : Nat × Nat)
      (offs : List Nat) (ancF : Nat × Nat) :
      Slicecap.guess_offset_of_slice_id fh maxgap file sliceSize anc sliceId = .ok (off, anc') →
      PlanChain fh maxgap file sliceSize (sliceId + 1) anc' offs ancF →
      PlanChain fh maxgap file sliceSize sliceId anc (off :: offs) ancF

/-- A 24-byte little-endian global header: magic `d4 c3 b2 a1`, version
2.4, thiszone 0, sigfigs 0, snaplen 200, network 1. -/
def cexHdr : List Nat :=
  [0xd4, 0xc3, 0xb2, 0xa1, 2, 0, 4, 0,
   0, 0, 0, 0, 0, 0, 0, 0, 200, 0, 0, 0, 1, 0, 0, 0]

/-- Record header of the first record: timestamp 1000.0, caplen 200,
len 200. -/
def cexR1 : List Nat := [0xe8, 3, 0, 0, 0, 0, 0, 0, 200, 0, 0, 0, 200, 0, 0, 0]

/-- 16 payload bytes at file offset 184 that decode like a record header
with timestamp 5000.0, caplen 1, len 1. -/
def cexQ : List Nat := [0x88, 0x13, 0, 0, 0, 0, 0, 0, 1, 0, 0, 0, 1, 0, 0, 0]

/-- 16 payload bytes at file offset 204 that decode like a record header
with timestamp 4600 seconds 7 microseconds, caplen 1, len 1. -/
def cexP : List Nat := [0xf8, 0x11, 0, 0, 7, 0, 0, 0, 1, 0, 0, 0, 1, 0, 0, 0]

/-- Record header of the second record: timestamp 1200.0, caplen 0. -/
def cexR2 : List Nat := [0xb0, 4, 0, 0, 0, 0, 0, 0, 0, 0, 0, 0, 0, 0, 0, 0]

/-- Record header of the third record: timestamp 1300.0, caplen 0. -/
def cexR3 : List Nat := [0x14, 5, 0, 0, 0, 0, 0, 0, 0, 0, 0, 0, 0, 0, 0, 0]

/-- A 272-byte pcap file with three structurally valid records (offsets
24, 240 and 256, timestamps 1000, 1200, 1300, all caplens within the
declared snaplen 200 and all gaps far below maxgap 3600).  The first
record's 200-byte payload is zero except for two planted 16-byte byte
patterns at offsets 184 and 204 that also pass the locator's structural
checks. -/
def cexFile : List Nat :=
  cexHdr ++ cexR1 ++ List.replicate 144 0 ++ cexQ ++ List.replicate 4 0 ++ cexP
    ++ List.replicate 20 0 ++ cexR2 ++ cexR3

/-- The decoded global header of `cexFile`. -/
def cexHeader : PcapFileHeader :=
  { magic := magicLittle, byte_order := .little, version_major := 2, version_minor := 4,
    thiszone := 0, sigfigs := 0, snaplen := 200, network := 1 }

/-- A 16-byte slice of a list with at least 16 elements decodes to some
record header. -/
theorem unpack_take16_some (bo : ByteOrder) (l : List Nat) (h : 16 ≤ l.length) :
    ∃ p, PcapPkthdr.unpack_header (l.take 16) bo = some p := by
  unfold PcapPkthdr.unpack_header
  rw [if_pos (by rw [List.length_take]; omega)]
  exact ⟨_, rfl⟩

/-- Shifting the candidate scan one byte into the window shifts the
acceptance predicate accordingly. -/
theorem acceptsAt_cons_succ (bo : ByteOrder) (sn : Nat) (mg : Int) (a1 : Nat)
    (b : Nat) (rest : List Nat) (d : Nat) :
    acceptsAt bo sn mg a1 (b :: rest) (d + 1) = acceptsAt bo sn mg a1 rest d := rfl

/-- The acceptance predicate at candidate 0, rewritten through the
decoded record header. -/
theorem acceptsAt_zero_eq (bo : ByteOrder) (sn : Nat) (mg : Int) (a1 : Nat)
    (data : List Nat) (p : PcapPkthdr)
    (hp : PcapPkthdr.unpack_header (data.take 16) bo = some p) :
    acceptsAt bo sn mg a1 data 0 =
      (decide (a1 ≤ p.tv_sec) && decide ((p.tv_sec : Int) - (a1 : Int) ≤ mg)
        && decide (p.caplen ≤ sn)) := by
  unfold acceptsAt
  rw [List.drop_zero, hp]

/-- Characterisation of the candidate scan: it succeeds with sub-offset
`d0 + j` and updated anchor exactly when `j` is inside the loop bound,
its decoded header passes the three checks, every earlier candidate is
rejected, and the anchor is that header's timestamp. -/
theorem scanWindow_ok_iff (bo : ByteOrder) (sn : Nat) (mg : Int) (a1 a2 : Nat) :
    ∀ (data : List Nat) (d0 off : Nat) (anc' : Nat × Nat),
    scanWindow bo sn mg a1 a2 data d0 = (some off, anc') ↔
    ∃ j p, off = d0 + j ∧ j < data.length - 16 ∧
      PcapPkthdr.unpack_header ((data.drop j).take 16) bo = some p ∧
      a1 ≤ p.tv_sec ∧ (p.tv_sec : Int) - (a1 : Int) ≤ mg ∧ p.caplen ≤ sn ∧
      (∀ i, i < j → acceptsAt bo sn mg a1 data i = false) ∧
      anc' = (p.tv_sec, p.tv_usec) := by
  intro data
  induction data with
  | nil =>
    intro d0 off anc'
    simp [scanWindow]
  | cons b rest ih =>
    intro d0 off anc'
    rw [show scanWindow bo sn mg a1 a2 (b :: rest) d0 =
          (if (b :: rest).length < 17 then (none, (a1, a2))
           else match PcapPkthdr.unpack_header ((b :: rest).take 16) bo with
             | none => (none, (a1, a2))
             | some p =>
               if p.tv_sec < a1 then scanWindow bo sn mg a1 a2 rest (d0 + 1)
               else if (p.tv_sec : Int) - (a1 : Int) > mg then
                 scanWindow bo sn mg a1 a2 rest (d0 + 1)
               else if sn < p.caplen then scanWindow bo sn mg a1 a2 rest (d0 + 1)
               else (some d0, (p.tv_sec, p.tv_usec))) from rfl]
    by_cases hlen : (b :: rest).length < 17
    · have hz : (b :: rest).length - 16 = 0 := by omega
      rw [if_pos hlen, hz]
      simp
    · have hlen' : 17 ≤ (b :: rest).length := by omega
      have hrest : 16 ≤ rest.length := by
        simp only [List.length_cons] at hlen'; omega
      obtain ⟨p, hp⟩ := unpack_take16_some bo (b :: rest) (by omega)
      have hacc0 := acceptsAt_zero_eq bo sn mg a1 (b :: rest) p hp
      rw [if_neg hlen, hp]
      dsimp only
      by_cases hc1 : p.tv_sec < a1
      · rw [if_pos hc1]
        have hacc : acceptsAt bo sn mg a1 (b :: rest) 0 = false := by
          rw [hacc0]; simp; omega
        rw [ih (d0 + 1) off anc']
        constructor
        · rintro ⟨j, q, hoff, hj, hup, h1, h2, h3, hall, hanc⟩
          refine ⟨j + 1, q, by omega, by simp only [List.length_cons]; omega,
            hup, h1, h2, h3, ?_, hanc⟩
          intro i hi
          cases i with
          | zero => exact hacc
          | succ i' => rw [acceptsAt_cons_succ]; exact hall i' (by omega)
        · rintro ⟨j, q, hoff, hj, hup, h1, h2, h3, hall, hanc⟩
          cases j with
          | zero =>
            rw [List.drop_zero, hp] at hup
            cases hup
            omega
          | succ j' =>
            refine ⟨j', q, by omega, by simp only [List.length_cons] at hj; omega,
              hup, h1, h2, h3, ?_, hanc⟩
            intro i hi
            have := hall (i + 1) (by omega)
            rwa [acceptsAt_cons_succ] at this
      · rw [if_neg hc1]
        by_cases hc2 : (p.tv_sec : Int) - (a1 : Int) > mg
        · rw [if_pos hc2]
          have hacc : acceptsAt bo sn mg a1 (b :: rest) 0 = false := by
            rw [hacc0]; simp; omega
          rw [ih (d0 + 1) off anc']
          constructor
          · rintro ⟨j, q, hoff, hj, hup, h1, h2, h3, hall, hanc⟩
            refine ⟨j + 1, q, by omega, by simp only [List.length_cons]; omega,
              hup, h1, h2, h3, ?_, hanc⟩
            intro i hi
            cases i with
            | zero => exact hacc
            | succ i' => rw [acceptsAt_cons_succ]; exact hall i' (by omega)
          · rintro ⟨j, q, hoff, hj, hup, h1, h2, h3, hall, hanc⟩
            cases j with
            | zero =>
              rw [List.drop_zero, hp] at hup
              cases hup
              omega
            | succ j' =>
              refine ⟨j', q, by omega, by simp only [List.length_cons] at hj; omega,
                hup, h1, h2, h3, ?_, hanc⟩
              intro i hi
              have := hall (i + 1) (by omega)
              rwa [acceptsAt_cons_succ] at this
        · rw [if_neg hc2]
          by_cases hc3 : sn < p.caplen
          · rw [if_pos hc3]
            have hacc : acceptsAt bo sn mg a1 (b :: rest) 0 = false := by
              rw [hacc0]; simp; omega
            rw [ih (d0 + 1) off anc']
            constructor
            · rintro ⟨j, q, hoff, hj, hup, h1, h2, h3, hall, hanc⟩
              refine ⟨j + 1, q, by omega, by simp only [List.length_cons]; omega,
                hup, h1, h2, h3, ?_, hanc⟩
              intro i hi
              cases i with
              | zero => exact hacc
              | succ i' => rw [acceptsAt_cons_succ]; exact hall i' (by omega)
            · rintro ⟨j, q, hoff, hj, hup, h1, h2, h3, hall, hanc⟩
              cases j with
              | zero =>
                rw [List.drop_zero, hp] at hup
                cases hup
                omega
              | succ j' =>
                refine ⟨j', q, by omega, by simp only [List.length_cons] at hj; omega,
                  hup, h1, h2, h3, ?_, hanc⟩
                intro i hi
                have := hall (i + 1) (by omega)
                rwa [acceptsAt_cons_succ] at this
          · rw [if_neg hc3]
            constructor
            · intro hok
              rw [Prod.mk.injEq] at hok
              obtain ⟨hoff, hanc⟩ := hok
              cases hoff
              exact ⟨0, p, by omega, by simp only [List.length_cons]; omega,
                by rw [List.drop_zero]; exact hp, by omega, by omega, by omega,
                by intro i hi; omega, hanc.symm⟩
            · rintro ⟨j, q, hoff, hj, hup, h1, h2, h3, hall, hanc⟩
              cases j with
              | zero =>
                rw [List.drop_zero, hp] at hup
                cases hup
                rw [Prod.mk.injEq]
                exact ⟨by simp [hoff], by rw [hanc]⟩
              | succ j' =>
                exfalso
                have := hall 0 (by omega)
                rw [hacc0] at this
                simp at this
                omega

/-- The candidate scan reports no result exactly when every candidate in
the loop range is rejected. -/
theorem scanWindow_none_iff (bo : ByteOrder) (sn : Nat) (mg : Int) (a1 a2 : Nat) :
    ∀ (data : List Nat) (d0 : Nat),
    (scanWindow bo sn mg a1 a2 data d0).1 = none ↔
    ∀ j, j < data.length - 16 → acceptsAt bo sn mg a1 data j = false := by
  intro data
  induction data with
  | nil =>
    intro d0
    simp [scanWindow]
  | cons b rest ih =>
    intro d0
    rw [show scanWindow bo sn mg a1 a2 (b :: rest) d0 =
          (if (b :: rest).length < 17 then (none, (a1, a2))
           else match PcapPkthdr.unpack_header ((b :: rest).take 16) bo with
             | none => (none, (a1, a2))
             | some p =>
               if p.tv_sec < a1 then scanWindow bo sn mg a1 a2 rest (d0 + 1)
               else if (p.tv_sec : Int) - (a1 : Int) > mg then
                 scanWindow bo sn mg a1 a2 rest (d0 + 1)
               else if sn < p.caplen then scanWindow bo sn mg a1 a2 rest (d0 + 1)
               else (some d0, (p.tv_sec, p.tv_usec))) from rfl]
    by_cases hlen : (b :: rest).length < 17
    · have hz : (b :: rest).length - 16 = 0 := by omega
      rw [if_pos hlen, hz]
      simp
    · have hlen' : 17 ≤ (b :: rest).length := by omega
      have hrest : 16 ≤ rest.length := by
        simp only [List.length_cons] at hlen'; omega
      obtain ⟨p, hp⟩ := unpack_take16_some bo (b :: rest) (by omega)
      have hacc0 := acceptsAt_zero_eq bo sn mg a1 (b :: rest) p hp
      rw [if_neg hlen, hp]
      dsimp only
      have hshift : (∀ j, j < rest.length - 16 → acceptsAt bo sn mg a1 rest j = false) →
          acceptsAt bo sn mg a1 (b :: rest) 0 = false →
          ∀ j, j < (b :: rest).length - 16 → acceptsAt bo sn mg a1 (b :: rest) j = false := by
        intro htail h0 j hj
        cases j with
        | zero => exact h0
        | succ j' =>
          rw [acceptsAt_cons_succ]
          exact htail j' (by simp only [List.length_cons] at hj; omega)
      have hshift' : (∀ j, j < (b :: rest).length - 16 →
            acceptsAt bo sn mg a1 (b :: rest) j = false) →
          ∀ j, j < rest.length - 16 → acceptsAt bo sn mg a1 rest j = false := by
        intro hall j hj
        have := hall (j + 1) (by simp only [List.length_cons]; omega)
        rwa [acceptsAt_cons_succ] at this
      by_cases hc1 : p.tv_sec < a1
      · rw [if_pos hc1, ih (d0 + 1)]
        have hacc : acceptsAt bo sn mg a1 (b :: rest) 0 = false := by
          rw [hacc0]; simp; omega
        exact ⟨fun htail => hshift htail hacc, hshift'⟩
      · rw [if_neg hc1]
        by_cases hc2 : (p.tv_sec : Int) - (a1 : Int) > mg
        · rw [if_pos hc2, ih (d0 + 1)]
          have hacc : acceptsAt bo sn mg a1 (b :: rest) 0 = false := by
            rw [hacc0]; simp; omega
          exact ⟨fun htail => hshift htail hacc, hshift'⟩
        · rw [if_neg hc2]
          by_cases hc3 : sn < p.caplen
          · rw [if_pos hc3, ih (d0 + 1)]
            have hacc : acceptsAt bo sn mg a1 (b :: rest) 0 = false := by
              rw [hacc0]; simp; omega
            exact ⟨fun htail => hshift htail hacc, hshift'⟩
          · rw [if_neg hc3]
            constructor
            · intro h
              exact absurd h (by simp)
            · intro hall
              exfalso
              have := hall 0 (by simp only [List.length_cons]; omega)
              rw [hacc0] at this
              simp at this
              omega

/-- On a failed scan the anchor state is returned unchanged (the source
assigns the anchor fields only in the accepting branch). -/
theorem scanWindow_none_anchor (bo : ByteOrder) (sn : Nat) (mg : Int) (a1 a2 : Nat) :
    ∀ (data : List Nat) (d0 : Nat),
    (scanWindow bo sn mg a1 a2 data d0).1 = none →
    (scanWindow bo sn mg a1 a2 data d0).2 = (a1, a2) := by
  intro data
  induction data with
  | nil => intro d0 _; rfl
  | cons b rest ih =>
    intro d0
    rw [show scanWindow bo sn mg a1 a2 (b :: rest) d0 =
          (if (b :: rest).length < 17 then (none, (a1, a2))
           else match PcapPkthdr.unpack_header ((b :: rest).take 16) bo with
             | none => (none, (a1, a2))
             | some p =>
               if p.tv_sec < a1 then scanWindow bo sn mg a1 a2 rest (d0 + 1)
               else if (p.tv_sec : Int) - (a1 : Int) > mg then
                 scanWindow bo sn mg a1 a2 rest (d0 + 1)
               else if sn < p.caplen then scanWindow bo sn mg a1 a2 rest (d0 + 1)
               else (some d0, (p.tv_sec, p.tv_usec))) from rfl]
    by_cases hlen : (b :: rest).length < 17
    · rw [if_pos hlen]; intro _; rfl
    · obtain ⟨p, hp⟩ := unpack_take16_some bo (b :: rest)
        (by simp only [List.length_cons] at hlen ⊢; omega)
      rw [if_neg hlen, hp]
      dsimp only
      by_cases hc1 : p.tv_sec < a1
      · rw [if_pos hc1]; exact ih (d0 + 1)
      · rw [if_neg hc1]
        by_cases hc2 : (p.tv_sec : Int) - (a1 : Int) > mg
        · rw [if_pos hc2]; exact ih (d0 + 1)
        · rw [if_neg hc2]
          by_cases hc3 : sn < p.caplen
          · rw [if_pos hc3]; exact ih (d0 + 1)
          · rw [if_neg hc3]; intro h; exact absurd h (by simp)

/-- A candidate whose decoded header exists and passes the three checks
is accepted by the acceptance predicate. -/
theorem acceptsAt_true_of (bo : ByteOrder) (sn : Nat) (mg : Int) (a1 : Nat)
    (data : List Nat) (d : Nat) (p : PcapPkthdr)
    (hup : PcapPkthdr.unpack_header ((data.drop d).take 16) bo = some p)
    (h1 : a1 ≤ p.tv_sec) (h2 : (p.tv_sec : Int) - (a1 : Int) ≤ mg)
    (h3 : p.caplen ≤ sn) :
    acceptsAt bo sn mg a1 data d = true := by
  unfold acceptsAt
  rw [hup]
  simp [h1, h2, h3]

/-- C1: at a guessed offset `g = slice_id * slice_size` the boundary
locator reads a window of at most `snaplen + 1000` bytes, and it returns
`g + d` with the anchor updated to the candidate's timestamp exactly for
the first candidate sub-offset `d` below `window length - 16` whose
decoded 16-byte record header passes all three checks (timestamp at least
the anchor's, forward gap at most `maxgap`, `caplen` at most `snaplen`). -/
theorem slicecap_C1 (fh : PcapFileHeader) (maxgap : Int) (file : List Nat)
    (sliceSize : Nat) (anc : Nat × Nat) (sliceId : Nat) :
    (Slicecap.windowOf fh file (sliceId * sliceSize)).length ≤ fh.snaplen + 1000 ∧
    (∀ (off : Nat) (anc' : Nat × Nat),
      Slicecap.guess_offset_of_slice_id fh maxgap file sliceSize anc sliceId = .ok (off, anc') ↔
      ∃ d p, off = sliceId * sliceSize + d ∧
        d < (Slicecap.windowOf fh file (sliceId * sliceSize)).length - 16 ∧
        PcapPkthdr.unpack_header
          (((Slicecap.windowOf fh file (sliceId * sliceSize)).drop d).take 16)
          fh.byte_order = some p ∧
        anc.1 ≤ p.tv_sec ∧ (p.tv_sec : Int) - (anc.1 : Int) ≤ maxgap ∧
        p.caplen ≤ fh.snaplen ∧
        (∀ e, e < d → acceptsAt fh.byte_order fh.snaplen maxgap anc.1
          (Slicecap.windowOf fh file (sliceId * sliceSize)) e = false) ∧
        anc' = (p.tv_sec, p.tv_usec)) := by
  constructor
  · exact List.length_take_le _ _
  · intro off anc'
    simp only [Slicecap.guess_offset_of_slice_id]
    rcases hscan : scanWindow fh.byte_order fh.snaplen maxgap anc.1 anc.2
        (Slicecap.windowOf fh file (sliceId * sliceSize)) 0 with ⟨res, anc2⟩
    cases res with
    | none =>
      dsimp only
      constructor
      · intro h
        exact absurd h (by simp)
      · rintro ⟨d, p, hoff, hd, hup, h1, h2, h3, hall, hanc⟩
        exfalso
        have hnone := (scanWindow_none_iff fh.byte_order fh.snaplen maxgap anc.1 anc.2
          (Slicecap.windowOf fh file (sliceId * sliceSize)) 0).1 (by rw [hscan]) d hd
        rw [acceptsAt_true_of fh.byte_order fh.snaplen maxgap anc.1 _ d p hup h1 h2 h3]
          at hnone
        exact Bool.true_eq_false.mp hnone
    | some d =>
      dsimp only
      have hchar := (scanWindow_ok_iff fh.byte_order fh.snaplen maxgap anc.1 anc.2
        (Slicecap.windowOf fh file (sliceId * sliceSize)) 0 d anc2).1 hscan
      obtain ⟨j, p, hdj, hj, hup, h1, h2, h3, hall, hanc2⟩ := hchar
      have hdj' : d = j := by omega
      subst hdj'
      constructor
      · intro h
        rw [Except.ok.injEq, Prod.mk.injEq] at h
        obtain ⟨hoff, hanc'⟩ := h
        exact ⟨d, p, hoff.symm, hj, hup, h1, h2, h3, hall, by rw [← hanc', hanc2]⟩
      · rintro ⟨d', p', hoff, hd', hup', h1', h2', h3', hall', hanc'⟩
        have hdd : d' = d := by
          rcases Nat.lt_trichotomy d' d with hlt | heq | hgt
          · exfalso
            have := hall d' hlt
            rw [acceptsAt_true_of fh.byte_order fh.snaplen maxgap anc.1 _ d' p' hup'
              h1' h2' h3'] at this
            exact Bool.true_eq_false.mp this
          · exact heq
          · exfalso
            have := hall' d hgt
            rw [acceptsAt_true_of fh.byte_order fh.snaplen maxgap anc.1 _ d p hup
              h1 h2 h3] at this
            exact Bool.true_eq_false.mp this
        subst hdd
        rw [hup] at hup'
        cases hup'
        rw [Except.ok.injEq, Prod.mk.injEq]
        exact ⟨hoff.symm, by rw [hanc', hanc2]⟩

/-- C2: the boundary locator never accepts a candidate that fails any of
the three structural checks; it reports the boundary-not-found error,
naming the requested slice, exactly when every candidate in the scan
window fails a check; and a failing scan leaves the time anchor
unchanged. -/
theorem slicecap_C2 (fh : PcapFileHeader) (maxgap : Int) (file : List Nat)
    (sliceSize : Nat) (anc : Nat × Nat) (sliceId : Nat) :
    (∀ (off : Nat) (anc' : Nat × Nat),
      Slicecap.guess_offset_of_slice_id fh maxgap file sliceSize anc sliceId = .ok (off, anc') →
      ∃ p, PcapPkthdr.unpack_header
          (((Slicecap.windowOf fh file (sliceId * sliceSize)).drop
            (off - sliceId * sliceSize)).take 16) fh.byte_order = some p ∧
        anc.1 ≤ p.tv_sec ∧ (p.tv_sec : Int) - (anc.1 : Int) ≤ maxgap ∧
        p.caplen ≤ fh.snaplen) ∧
    (Slicecap.guess_offset_of_slice_id fh maxgap file sliceSize anc sliceId =
        .error ⟨sliceId⟩ ↔
      ∀ d, d < (Slicecap.windowOf fh file (sliceId * sliceSize)).length - 16 →
        acceptsAt fh.byte_order fh.snaplen maxgap anc.1
          (Slicecap.windowOf fh file (sliceId * sliceSize)) d = false) ∧
    (∀ d0, (scanWindow fh.byte_order fh.snaplen maxgap anc.1 anc.2
        (Slicecap.windowOf fh file (sliceId * sliceSize)) d0).1 = none →
      (scanWindow fh.byte_order fh.snaplen maxgap anc.1 anc.2
        (Slicecap.windowOf fh file (sliceId * sliceSize)) d0).2 = (anc.1, anc.2)) := by
  refine ⟨?_, ?_, ?_⟩
  · intro off anc' h
    have hiff := (slicecap_C1 fh maxgap file sliceSize anc sliceId).2 off anc'
    obtain ⟨d, p, hoff, hd, hup, h1, h2, h3, hall, hanc⟩ := hiff.1 h
    refine ⟨p, ?_, h1, h2, h3⟩
    rw [hoff]
    rw [show sliceId * sliceSize + d - sliceId * sliceSize = d from by omega]
    exact hup
  · simp only [Slicecap.guess_offset_of_slice_id]
    rcases hscan : scanWindow fh.byte_order fh.snaplen maxgap anc.1 anc.2
        (Slicecap.windowOf fh file (sliceId * sliceSize)) 0 with ⟨res, anc2⟩
    cases res with
    | none =>
      dsimp only
      constructor
      · intro _
        exact (scanWindow_none_iff fh.byte_order fh.snaplen maxgap anc.1 anc.2
          (Slicecap.windowOf fh file (sliceId * sliceSize)) 0).1 (by rw [hscan])
      · intro _
        rfl
    | some d =>
      dsimp only
      constructor
      · intro h
        exact absurd h (by simp)
      · intro hall
        exfalso
        have := (scanWindow_none_iff fh.byte_order fh.snaplen maxgap anc.1 anc.2
          (Slicecap.windowOf fh file (sliceId * sliceSize)) 0).2 hall
        rw [hscan] at this
        exact Option.some_ne_none d this
  · intro d0
    exact scanWindow_none_anchor fh.byte_order fh.snaplen maxgap anc.1 anc.2
      (Slicecap.windowOf fh file (sliceId * sliceSize)) d0

/-- A successful boundary location never moves the anchor's seconds value
backwards: the accepted candidate's timestamp is at least the old
anchor's. -/
theorem guess_offset_anchor_mono (fh : PcapFileHeader) (mg : Int) (file : List Nat)
    (ss : Nat) (anc : Nat × Nat) (sliceId off : Nat) (anc' : Nat × Nat)
    (h : Slicecap.guess_offset_of_slice_id fh mg file ss anc sliceId = .ok (off, anc')) :
    anc.1 ≤ anc'.1 := by
  simp only [Slicecap.guess_offset_of_slice_id] at h
  rcases hscan : scanWindow fh.byte_order fh.snaplen mg anc.1 anc.2
      (Slicecap.windowOf fh file (sliceId * ss)) 0 with ⟨res, anc2⟩
  rw [hscan] at h
  cases res with
  | none => exact absurd h (by simp)
  | some d =>
    obtain ⟨j, p, _, _, _, h1, _, _, _, hanc2⟩ :=
      (scanWindow_ok_iff fh.byte_order fh.snaplen mg anc.1 anc.2
        (Slicecap.windowOf fh file (sliceId * ss)) 0 d anc2).1 hscan
    rw [Except.ok.injEq, Prod.mk.injEq] at h
    rw [← h.2, hanc2]
    exact h1

/-- The offset loop of the planner never moves the anchor's seconds value
backwards. -/
theorem guessLoop_anchor_mono (fh : PcapFileHeader) (mg : Int) (file : List Nat)
    (ss : Nat) : ∀ (n sliceId : Nat) (anc : Nat × Nat) (offs : List Nat) (ancF : Nat × Nat),
    Slicecap.guessLoop fh mg file ss n sliceId anc = .ok (offs, ancF) → anc.1 ≤ ancF.1 := by
  intro n
  induction n with
  | zero =>
    intro sliceId anc offs ancF h
    rw [show Slicecap.guessLoop fh mg file ss 0 sliceId anc = .ok ([], anc) from rfl] at h
    rw [Except.ok.injEq, Prod.mk.injEq] at h
    rw [← h.2]
  | succ n ih =>
    intro sliceId anc offs ancF h
    rw [show Slicecap.guessLoop fh mg file ss (n + 1) sliceId anc =
          (match Slicecap.guess_offset_of_slice_id fh mg file ss anc sliceId with
           | .error e => .error e
           | .ok (off, anc') =>
             match Slicecap.guessLoop fh mg file ss n (sliceId + 1) anc' with
             | .error e => .error e
             | .ok (offs, ancF) => .ok (off :: offs, ancF)) from rfl] at h
    rcases hg : Slicecap.guess_offset_of_slice_id fh mg file ss anc sliceId with e | r
    · rw [hg] at h
      exact absurd h (by simp)
    · rw [hg] at h
      rcases r with ⟨off, anc'⟩
      dsimp only at h
      rcases hl : Slicecap.guessLoop fh mg file ss n (sliceId + 1) anc' with e | r2
      · rw [hl] at h
        exact absurd h (by simp)
      · rw [hl] at h
        rcases r2 with ⟨offs2, ancF2⟩
        rw [Except.ok.injEq, Prod.mk.injEq] at h
        calc anc.1 ≤ anc'.1 := guess_offset_anchor_mono fh mg file ss anc sliceId off anc' hg
          _ ≤ ancF2.1 := ih (sliceId + 1) anc' offs2 ancF2 hl
          _ = ancF.1 := by rw [h.2]

/-- The offset loop returns exactly as many offsets as requested. -/
theorem guessLoop_length (fh : PcapFileHeader) (mg : Int) (file : List Nat)
    (ss : Nat) : ∀ (n sliceId : Nat) (anc : Nat × Nat) (offs : List Nat) (ancF : Nat × Nat),
    Slicecap.guessLoop fh mg file ss n sliceId anc = .ok (offs, ancF) → offs.length = n := by
  intro n
  induction n with
  | zero =>
    intro sliceId anc offs ancF h
    rw [show Slicecap.guessLoop fh mg file ss 0 sliceId anc = .ok ([], anc) from rfl] at h
    rw [Except.ok.injEq, Prod.mk.injEq] at h
    rw [← h.1]
    rfl
  | succ n ih =>
    intro sliceId anc offs ancF h
    rw [show Slicecap.guessLoop fh mg file ss (n + 1) sliceId anc =
          (match Slicecap.guess_offset_of_slice_id fh mg file ss anc sliceId with
           | .error e => .error e
           | .ok (off, anc') =>
             match Slicecap.guessLoop fh mg file ss n (sliceId + 1) anc' with
             | .error e => .error e
             | .ok (offs, ancF) => .ok (off :: offs, ancF)) from rfl] at h
    rcases hg : Slicecap.guess_offset_of_slice_id fh mg file ss anc sliceId with e | r
    · rw [hg] at h
      exact absurd h (by simp)
    · rw [hg] at h
      rcases r with ⟨off, anc'⟩
      dsimp only at h
      rcases hl : Slicecap.guessLoop fh mg file ss n (sliceId + 1) anc' with e | r2
      · rw [hl] at h
        exact absurd h (by simp)
      · rw [hl] at h
        rcases r2 with ⟨offs2, ancF2⟩
        rw [Except.ok.injEq, Prod.mk.injEq] at h
        rw [← h.1, List.length_cons, ih (sliceId + 1) anc' offs2 ancF2 hl]

/-- A successful run of the offset loop is exactly a `PlanChain`: the
offsets are the locator's results invoked strictly in index order with
the anchor threaded through. -/
theorem guessLoop_chain (fh : PcapFileHeader) (mg : Int) (file : List Nat)
    (ss : Nat) : ∀ (n sliceId : Nat) (anc : Nat × Nat) (offs : List Nat) (ancF : Nat × Nat),
    Slicecap.guessLoop fh mg file ss n sliceId anc = .ok (offs, ancF) →
    PlanChain fh mg file ss sliceId anc offs ancF := by
  intro n
  induction n with
  | zero =>
    intro sliceId anc offs ancF h
    rw [show Slicecap.guessLoop fh mg file ss 0 sliceId anc = .ok ([], anc) from rfl] at h
    rw [Except.ok.injEq, Prod.mk.injEq] at h
    rw [← h.1, ← h.2]
    exact PlanChain.nil sliceId anc
  | succ n ih =>
    intro sliceId anc offs ancF h
    rw [show Slicecap.guessLoop fh mg file ss (n + 1) sliceId anc =
          (match Slicecap.guess_offset_of_slice_id fh mg file ss anc sliceId with
           | .error e => .error e
           | .ok (off, anc') =>
             match Slicecap.guessLoop fh mg file ss n (sliceId + 1) anc' with
             | .error e => .error e
             | .ok (offs, ancF) => .ok (off :: offs, ancF)) from rfl] at h
    rcases hg : Slicecap.guess_offset_of_slice_id fh mg file ss anc sliceId with e | r
    · rw [hg] at h
      exact absurd h (by simp)
    · rw [hg] at h
      rcases r with ⟨off, anc'⟩
      dsimp only at h
      rcases hl : Slicecap.guessLoop fh mg file ss n (sliceId + 1) anc' with e | r2
      · rw [hl] at h
        exact absurd h (by simp)
      · rw [hl] at h
        rcases r2 with ⟨offs2, ancF2⟩
        rw [Except.ok.injEq, Prod.mk.injEq] at h
        rw [← h.1, ← h.2]
        exact PlanChain.cons sliceId anc off anc' offs2 ancF2 hg
          (ih (sliceId + 1) anc' offs2 ancF2 hl)

/-- C10: constructing the slicer decodes a record header from bytes
24..40 and seeds the time anchor with its timestamp, so construction
fails on any file shorter than 40 bytes; and since the scan only accepts
candidates whose timestamp is at least the current anchor and then
raises the anchor to that timestamp, neither one boundary location nor
the whole located sequence can ever drive the anchor's seconds — and
hence any accepted boundary's timestamp — below the first record's. -/
theorem slicecap_C10 :
    (∀ file : List Nat, file.length < 40 → ∃ e, Slicecap.unpack_file_header file = .error e) ∧
    (∀ (file : List Nat) (fh : PcapFileHeader) (anc : Nat × Nat),
      Slicecap.unpack_file_header file = .ok (fh, anc) →
      ∃ p, PcapPkthdr.unpack_header ((file.drop 24).take 16) fh.byte_order = some p ∧
        anc = (p.tv_sec, p.tv_usec)) ∧
    (∀ (fh : PcapFileHeader) (mg : Int) (file : List Nat) (ss : Nat) (anc : Nat × Nat)
       (sliceId off : Nat) (anc' : Nat × Nat),
      Slicecap.guess_offset_of_slice_id fh mg file ss anc sliceId = .ok (off, anc') →
      anc.1 ≤ anc'.1) ∧
    (∀ (fh : PcapFileHeader) (mg : Int) (file : List Nat) (ss n sliceId : Nat)
       (anc : Nat × Nat) (offs : List Nat) (ancF : Nat × Nat),
      Slicecap.guessLoop fh mg file ss n sliceId anc = .ok (offs, ancF) →
      anc.1 ≤ ancF.1) := by
  refine ⟨?_, ?_, ?_, ?_⟩
  · intro file hlen
    cases hh : PcapFileHeader.unpack_header (file.take 24) with
    | error e =>
      exact ⟨.fileHeader e, by simp only [Slicecap.unpack_file_header]; rw [hh]⟩
    | ok fh =>
      have hne : ((file.drop 24).take 16).length ≠ 16 := by
        rw [List.length_take, List.length_drop]; omega
      have hp : PcapPkthdr.unpack_header ((file.drop 24).take 16) fh.byte_order = none := by
        unfold PcapPkthdr.unpack_header
        rw [if_neg hne]
      refine ⟨.shortRecord, ?_⟩
      simp only [Slicecap.unpack_file_header]
      rw [hh]
      dsimp only
      rw [hp]
  · intro file fh anc h
    simp only [Slicecap.unpack_file_header] at h
    cases hh : PcapFileHeader.unpack_header (file.take 24) with
    | error e =>
      rw [hh] at h
      exact absurd h (by simp)
    | ok fh2 =>
      rw [hh] at h
      dsimp only at h
      cases hp : PcapPkthdr.unpack_header ((file.drop 24).take 16) fh2.byte_order with
      | none =>
        rw [hp] at h
        exact absurd h (by simp)
      | some p =>
        rw [hp] at h
        rw [Except.ok.injEq, Prod.mk.injEq] at h
        refine ⟨p, ?_, h.2.symm⟩
        rw [← h.1]
        exact hp
  · intro fh mg file ss anc sliceId off anc' h
    exact guess_offset_anchor_mono fh mg file ss anc sliceId off anc' h
  · intro fh mg file ss n sliceId anc offs ancF h
    exact guessLoop_anchor_mono fh mg file ss n sliceId anc offs ancF h

/-- Concrete instantiation of the construction/anchor claim: a 30-byte
file is rejected, and one successful boundary location on the concrete
capture raises the anchor from second 1000 to second 4600. -/
theorem slicecap_C10_witness :
    (∃ e, Slicecap.unpack_file_header (List.replicate 30 0) = .error e) ∧
    ((1000 : Nat), (0 : Nat)).1 ≤ ((4600 : Nat), (7 : Nat)).1 :=
  ⟨slicecap_C10.1 (List.replicate 30 0) (by simp),
   slicecap_C10.2.2.1 cexHeader 3600 cexFile 90 (1000, 0) 1 204 (4600, 7) rfl⟩

/-- C7: on 24 bytes of input the decoder detects big-endian byte order
from the magic bytes `a1 b2 c3 d4`, little-endian from `d4 c3 b2 a1`,
and fails with the bad-magic format error on any other 4-byte prefix,
producing no header value. -/
theorem slicecap_C7 (data : List Nat) (h24 : data.length = 24) :
    ((data.getD 0 0, data.getD 1 0, data.getD 2 0, data.getD 3 0) = magicBig →
      ∀ fh, PcapFileHeader.unpack_header data = .ok fh → fh.byte_order = .big) ∧
    ((data.getD 0 0, data.getD 1 0, data.getD 2 0, data.getD 3 0) = magicLittle →
      ∀ fh, PcapFileHeader.unpack_header data = .ok fh → fh.byte_order = .little) ∧
    ((data.getD 0 0, data.getD 1 0, data.getD 2 0, data.getD 3 0) ≠ magicBig →
     (data.getD 0 0, data.getD 1 0, data.getD 2 0, data.getD 3 0) ≠ magicLittle →
      PcapFileHeader.unpack_header data = .error .badMagic) := by
  have h4 : ¬ data.length < 4 := by omega
  refine ⟨?_, ?_, ?_⟩
  · intro hm fh hok
    simp only [PcapFileHeader.unpack_header] at hok
    rw [if_neg h4, if_pos (Or.inl hm), if_pos hm, if_pos h24] at hok
    by_cases hv : dec16 ByteOrder.big (data.getD 4 0) (data.getD 5 0) = 2 ∧
        dec16 ByteOrder.big (data.getD 6 0) (data.getD 7 0) = 4
    · rw [if_pos hv] at hok
      have hh := Except.ok.inj hok
      rw [← hh]
    · rw [if_neg hv] at hok
      exact absurd hok (by simp)
  · intro hm fh hok
    have hmne : (data.getD 0 0, data.getD 1 0, data.getD 2 0, data.getD 3 0) ≠ magicBig := by
      rw [hm]
      decide
    simp only [PcapFileHeader.unpack_header] at hok
    rw [if_neg h4, if_pos (Or.inr hm), if_neg hmne, if_pos h24] at hok
    by_cases hv : dec16 ByteOrder.little (data.getD 4 0) (data.getD 5 0) = 2 ∧
        dec16 ByteOrder.little (data.getD 6 0) (data.getD 7 0) = 4
    · rw [if_pos hv] at hok
      have hh := Except.ok.inj hok
      rw [← hh]
    · rw [if_neg hv] at hok
      exact absurd hok (by simp)
  · intro hb hl
    simp only [PcapFileHeader.unpack_header]
    rw [if_neg h4, if_neg (not_or.mpr ⟨hb, hl⟩)]

/-- The all-sevens 24-byte input: its 4-byte prefix matches neither
recognised magic pattern. -/
def badMagicData : List Nat := List.replicate 24 7

/-- Concrete instantiation of the byte-order claim: the all-sevens input
is rejected with the bad-magic error, while the little-endian header of
the concrete capture decodes with little-endian byte order. -/
theorem slicecap_C7_witness :
    PcapFileHeader.unpack_header badMagicData = .error .badMagic ∧
    cexHeader.byte_order = .little :=
  ⟨(slicecap_C7 badMagicData rfl).2.2 (by decide) (by decide),
   (slicecap_C7 cexHdr rfl).2.1 (by decide) cexHeader rfl⟩

/-- C8: on a successfully decoded global header, a declared snaplen
field of 0 is reported as effective snaplen 9000 and a nonzero declared
snaplen is passed through unchanged. -/
theorem slicecap_C8 (data : List Nat) (fh : PcapFileHeader)
    (hok : PcapFileHeader.unpack_header data = .ok fh) :
    (dec32 fh.byte_order (data.getD 16 0) (data.getD 17 0) (data.getD 18 0) (data.getD 19 0) = 0 →
      fh.snaplen = 9000) ∧
    (dec32 fh.byte_order (data.getD 16 0) (data.getD 17 0) (data.getD 18 0) (data.getD 19 0) ≠ 0 →
      fh.snaplen =
        dec32 fh.byte_order (data.getD 16 0) (data.getD 17 0) (data.getD 18 0) (data.getD 19 0)) := by
  simp only [PcapFileHeader.unpack_header] at hok
  by_cases h4 : data.length < 4
  · rw [if_pos h4] at hok
    exact absurd hok (by simp)
  · rw [if_neg h4] at hok
    by_cases hor : (data.getD 0 0, data.getD 1 0, data.getD 2 0, data.getD 3 0) = magicBig ∨
        (data.getD 0 0, data.getD 1 0, data.getD 2 0, data.getD 3 0) = magicLittle
    · rw [if_pos hor] at hok
      by_cases h24 : data.length = 24
      · rw [if_pos h24] at hok
        rcases hor with hm | hm
        · rw [if_pos hm] at hok
          by_cases hv : dec16 ByteOrder.big (data.getD 4 0) (data.getD 5 0) = 2 ∧
              dec16 ByteOrder.big (data.getD 6 0) (data.getD 7 0) = 4
          · rw [if_pos hv] at hok
            have hh := Except.ok.inj hok
            rw [← hh]
            dsimp only
            constructor
            · intro h
              rw [if_pos h]
            · intro h
              rw [if_neg h]
          · rw [if_neg hv] at hok
            exact absurd hok (by simp)
        · have hmne : (data.getD 0 0, data.getD 1 0, data.getD 2 0, data.getD 3 0) ≠ magicBig := by
            rw [hm]
            decide
          rw [if_neg hmne] at hok
          by_cases hv : dec16 ByteOrder.little (data.getD 4 0) (data.getD 5 0) = 2 ∧
              dec16 ByteOrder.little (data.getD 6 0) (data.getD 7 0) = 4
          · rw [if_pos hv] at hok
            have hh := Except.ok.inj hok
            rw [← hh]
            dsimp only
            constructor
            · intro h
              rw [if_pos h]
            · intro h
              rw [if_neg h]
          · rw [if_neg hv] at hok
            exact absurd hok (by simp)
      · rw [if_neg h24] at hok
        exact absurd hok (by simp)
    · rw [if_neg hor] at hok
      exact absurd hok (by simp)

/-- The 24-byte little-endian header `cexHdr` with a declared snaplen
field of 0. -/
def cexHdr0 : List Nat :=
  [0xd4, 0xc3, 0xb2, 0xa1, 2, 0, 4, 0,
   0, 0, 0, 0, 0, 0, 0, 0, 0, 0, 0, 0, 1, 0, 0, 0]

/-- The decoded global header of `cexHdr0`: effective snaplen 9000. -/
def cexHeader0 : PcapFileHeader :=
  { magic := magicLittle, byte_order := .little, version_major := 2, version_minor := 4,
    thiszone := 0, sigfigs := 0, snaplen := 9000, network := 1 }

/-- Concrete instantiation of the snaplen-default claim: declared 0 is
reported as 9000, declared 200 is passed through. -/
theorem slicecap_C8_witness :
    cexHeader0.snaplen = 9000 ∧ cexHeader.snaplen = 200 :=
  ⟨(slicecap_C8 cexHdr0 cexHeader0 rfl).1 (by decide),
   ((slicecap_C8 cexHdr cexHeader rfl).2 (by decide)).trans (by decide)⟩

/-- C9: for every fragment count at most 0 the planning pipeline fails —
`size // nslice` raises `ZeroDivisionError` for count 0, and for a
negative count the offset loop runs zero times so the final size
computation raises `IndexError` — and no fragment plan is produced. -/
theorem slicecap_C9 (nslice : Int) (hn : nslice ≤ 0) (file : List Nat) (mg : Int) :
    ∃ e, Slicecap.plan file nslice mg = .error e := by
  by_cases h0 : nslice = 0
  · refine ⟨.zeroDiv, ?_⟩
    unfold Slicecap.plan
    rw [if_pos h0]
  · have ht : nslice.toNat = 0 := by omega
    unfold Slicecap.plan
    rw [if_neg h0]
    cases hh : Slicecap.unpack_file_header file with
    | error e =>
      exact ⟨e, rfl⟩
    | ok r =>
      rcases r with ⟨fh, anc0⟩
      refine ⟨.indexError, ?_⟩
      dsimp only
      rw [ht]
      rfl

/-- Concrete instantiations of the invalid-fragment-count claim: count 0
and count -2 both make planning fail. -/
theorem slicecap_C9_witness :
    (∃ e, Slicecap.plan [] 0 3600 = .error e) ∧
    (∃ e, Slicecap.plan cexFile (-2) 3600 = .error e) :=
  ⟨slicecap_C9 0 (by decide) [] 3600, slicecap_C9 (-2) (by decide) cexFile 3600⟩

/-- The packed global file header is always exactly 24 bytes. -/
theorem pack_header_length (h : PcapFileHeader) : h.pack_header.length = 24 := by
  rcases h with ⟨⟨m0, m1, m2, m3⟩, bo, vmaj, vmin, tz, sf, sl, nw⟩
  cases bo <;> simp [PcapFileHeader.pack_header, enc16, enc32]

/-- When the requested range lies inside the file, the chunked read loop
delivers exactly the requested slice of the file. -/
theorem readChunks_spec (file : List Nat) :
    ∀ (fuel pos left : Nat), left ≤ fuel → pos + left ≤ file.length →
    Slicecap.readChunks file fuel pos left = (file.drop pos).take left := by
  intro fuel
  induction fuel with
  | zero =>
    intro pos left h1 h2
    have h0 : left = 0 := by omega
    subst h0
    simp [Slicecap.readChunks]
  | succ fuel ih =>
    intro pos left h1 h2
    simp only [Slicecap.readChunks]
    by_cases h0 : left = 0
    · rw [if_pos h0, h0]
      simp
    · rw [if_neg h0]
      have hm1 : 1 ≤ (if 8192 < left then 8192 else left) := by split <;> omega
      have hmle : (if 8192 < left then 8192 else left) ≤ left := by split <;> omega
      have hlen : ((file.drop pos).take (if 8192 < left then 8192 else left)).length =
          (if 8192 < left then 8192 else left) := by
        rw [List.length_take, List.length_drop]
        omega
      rw [hlen]
      rw [ih (pos + (if 8192 < left then 8192 else left))
        (left - (if 8192 < left then 8192 else left)) (by omega) (by omega)]
      have hd : file.drop (pos + (if 8192 < left then 8192 else left)) =
          (file.drop pos).drop (if 8192 < left then 8192 else left) := by
        rw [List.drop_drop, Nat.add_comm]
      rw [hd, ← List.take_add]
      congr 1
      omega

/-- C4: for a fragment lying inside the source file, the byte stream
written to the spawned command's input is exactly the 24-byte packed
global header followed by exactly the `size` bytes of the file starting
at `offset` — `24 + size` bytes in total. -/
theorem slicecap_C4 (fh : PcapFileHeader) (file : List Nat) (offset size : Nat)
    (h : offset + size ≤ file.length) :
    Slicecap.call_subcommand_stream fh file offset size =
      fh.pack_header ++ (file.drop offset).take size ∧
    (Slicecap.call_subcommand_stream fh file offset size).length = 24 + size := by
  have hr := readChunks_spec file size offset size (le_refl size) h
  constructor
  · unfold Slicecap.call_subcommand_stream
    rw [hr]
  · unfold Slicecap.call_subcommand_stream
    rw [hr, List.length_append, pack_header_length, List.length_take, List.length_drop]
    omega

/-- Concrete instantiation of the byte-stream claim: fragment offset 100,
size 50 of a 200-byte file yields header plus slice, 74 bytes. -/
theorem slicecap_C4_witness :
    Slicecap.call_subcommand_stream cexHeader (List.replicate 200 3) 100 50 =
      cexHeader.pack_header ++ ((List.replicate 200 3 : List Nat).drop 100).take 50 ∧
    (Slicecap.call_subcommand_stream cexHeader (List.replicate 200 3) 100 50).length = 24 + 50 :=
  slicecap_C4 cexHeader (List.replicate 200 3) 100 50 (by simp)

/-- Concrete instantiation of the rejection/error claim: the accepted
boundary of slice 0 of the concrete capture decodes and passes all three
checks, and on an empty file the locator reports the boundary-not-found
error naming the requested slice. -/
theorem slicecap_C2_witness :
    (∃ p, PcapPkthdr.unpack_header
        (((Slicecap.windowOf cexHeader cexFile (0 * 90)).drop (24 - 0 * 90)).take 16)
        cexHeader.byte_order = some p ∧
      ((1000 : Nat), (0 : Nat)).1 ≤ p.tv_sec ∧
      (p.tv_sec : Int) - ((((1000 : Nat), (0 : Nat)).1 : Nat) : Int) ≤ 3600 ∧
      p.caplen ≤ cexHeader.snaplen) ∧
    Slicecap.guess_offset_of_slice_id cexHeader 3600 [] 90 (1000, 0) 5 = .error ⟨5⟩ :=
  ⟨(slicecap_C2 cexHeader 3600 cexFile 90 (1000, 0) 0).1 24 (1000, 0) rfl,
   (slicecap_C2 cexHeader 3600 [] 90 (1000, 0) 5).2.1.2 (by
     intro d hd
     simp [Slicecap.windowOf] at hd)⟩

/-- A global header with big-endian magic, version 2.4, declared snaplen
0 and every field within its declared width: the claimed decode/encode
round trip fails on it. -/
def cexRoundtrip0 : PcapFileHeader :=
  { magic := magicBig, byte_order := .big, version_major := 2, version_minor := 4,
    thiszone := 0, sigfigs := 0, snaplen := 0, network := 1 }

/-- C6 counterexample: `cexRoundtrip0` has a recognised magic pattern and
fields fitting the declared widths, yet decoding its encoding yields the
header with snaplen 9000, not the header itself. -/
theorem slicecap_C6_counterexample :
    (cexRoundtrip0.magic = magicBig ∧ cexRoundtrip0.byte_order = .big ∧
     cexRoundtrip0.version_major < 65536 ∧ cexRoundtrip0.version_minor < 65536 ∧
     -2147483648 ≤ cexRoundtrip0.thiszone ∧ cexRoundtrip0.thiszone < 2147483648 ∧
     cexRoundtrip0.sigfigs < 4294967296 ∧ cexRoundtrip0.snaplen < 4294967296 ∧
     cexRoundtrip0.network < 4294967296) ∧
    PcapFileHeader.unpack_header cexRoundtrip0.pack_header =
      .ok { cexRoundtrip0 with snaplen := 9000 } ∧
    PcapFileHeader.unpack_header cexRoundtrip0.pack_header ≠ .ok cexRoundtrip0 := by
  refine ⟨by decide, rfl, ?_⟩
  intro h
  rw [show PcapFileHeader.unpack_header cexRoundtrip0.pack_header =
        .ok { cexRoundtrip0 with snaplen := 9000 } from rfl] at h
  exact absurd (Except.ok.inj h) (by decide)

/-- C6 amended: for a header whose magic is a recognised pattern matching
its stored byte order, whose version is 2.4, whose snaplen is nonzero and
whose fields fit their declared widths, decoding the encoding yields the
header back. -/
theorem slicecap_C6_amended (h : PcapFileHeader)
    (hmb : h.magic = magicBig ∧ h.byte_order = .big ∨
           h.magic = magicLittle ∧ h.byte_order = .little)
    (hv2 : h.version_major = 2) (hv4 : h.version_minor = 4)
    (hsn0 : h.snaplen ≠ 0)
    (htz1 : -2147483648 ≤ h.thiszone) (htz2 : h.thiszone < 2147483648)
    (hsf : h.sigfigs < 4294967296) (hsl : h.snaplen < 4294967296)
    (hnw : h.network < 4294967296) :
    PcapFileHeader.unpack_header h.pack_header = .ok h := by
  rcases h with ⟨m, bo, vmaj, vmin, tz, sf, sl, nw⟩
  dsimp only at hv2 hv4 hsn0 htz1 htz2 hsf hsl hnw hmb
  subst hv2 hv4
  rcases hmb with ⟨hm, hb⟩ | ⟨hm, hb⟩ <;> subst hm hb
  · simp only [PcapFileHeader.pack_header, enc16, enc32, encSigned32, magicBig,
      List.cons_append, List.nil_append]
    simp only [PcapFileHeader.unpack_header, List.getD_cons_zero, List.getD_cons_succ,
      List.length_cons, List.length_nil]
    norm_num
    have hmB : ((161, 178, 195, 212) : Nat × Nat × Nat × Nat) = magicBig := by decide
    rw [if_pos hmB]
    rw [if_pos (Or.inl hmB)]
    rw [if_pos (by decide : dec16 ByteOrder.big 0 2 = 2 ∧ dec16 ByteOrder.big 0 4 = 4)]
    rw [Except.ok.injEq, PcapFileHeader.mk.injEq]
    have hslrt : dec32 ByteOrder.big (sl / 16777216 % 256) (sl / 65536 % 256)
        (sl / 256 % 256) (sl % 256) = sl := by
      simp only [dec32]
      omega
    refine ⟨by rw [hmB], rfl, by decide, by decide, ?_, ?_, ?_, ?_⟩
    · simp only [dec32]
      unfold decSigned32
      split_ifs with hlt <;> omega
    · simp only [dec32]
      omega
    · rw [hslrt, if_neg hsn0]
    · simp only [dec32]
      omega
  · simp only [PcapFileHeader.pack_header, enc16, enc32, encSigned32, magicLittle,
      List.cons_append, List.nil_append]
    simp only [PcapFileHeader.unpack_header, List.getD_cons_zero, List.getD_cons_succ,
      List.length_cons, List.length_nil]
    norm_num
    have hmL : ((212, 195, 178, 161) : Nat × Nat × Nat × Nat) = magicLittle := by decide
    have hmLne : ((212, 195, 178, 161) : Nat × Nat × Nat × Nat) ≠ magicBig := by decide
    rw [if_neg hmLne]
    rw [if_pos (Or.inr hmL)]
    rw [if_pos (by decide : dec16 ByteOrder.little 2 0 = 2 ∧ dec16 ByteOrder.little 4 0 = 4)]
    rw [Except.ok.injEq, PcapFileHeader.mk.injEq]
    have hslrt : dec32 ByteOrder.little (sl % 256) (sl / 256 % 256)
        (sl / 65536 % 256) (sl / 16777216 % 256) = sl := by
      simp only [dec32]
      omega
    refine ⟨by rw [hmL], rfl, by decide, by decide, ?_, ?_, ?_, ?_⟩
    · simp only [dec32]
      unfold decSigned32
      split_ifs with hlt <;> omega
    · simp only [dec32]
      omega
    · rw [hslrt, if_neg hsn0]
    · simp only [dec32]
      omega

/-- Concrete instantiation of the amended round-trip claim on the
little-endian header of the concrete capture. -/
theorem slicecap_C6_amended_witness :
    PcapFileHeader.unpack_header cexHeader.pack_header = .ok cexHeader :=
  slicecap_C6_amended cexHeader (by decide) (by decide) (by decide) (by decide)
    (by decide) (by decide) (by decide) (by decide) (by decide)

/-- Builder view of `String.mk` on a string's own character list. -/
theorem string_mk_data (s : String) : String.mk s.data = s := rfl

/-- A token containing no brace characters passes through `str.format`
unchanged. -/
theorem formatAux_passthrough (off : Nat) (sz : Int) (sliceId : Nat) :
    ∀ (cs : List Char) (fuel : Nat), cs.length < fuel →
    (∀ c ∈ cs, c ≠ openBrace ∧ c ≠ closeBrace) →
    formatAux off sz sliceId fuel cs = some cs := by
  intro cs
  induction cs with
  | nil =>
    intro fuel hf _
    cases fuel with
    | zero => omega
    | succ f => rfl
  | cons c rest ih =>
    intro fuel hf hc
    cases fuel with
    | zero => omega
    | succ f =>
      have hco := hc c (List.mem_cons_self c rest)
      simp only [formatAux]
      rw [if_neg hco.1, if_neg hco.2]
      rw [ih f (by simp only [List.length_cons] at hf; omega)
        (fun c' hc' => hc c' (List.mem_cons_of_mem c hc'))]
      rfl

/-- C5 counterexample: the template token `\x7bFRAGMENT_INDEX\x7d` is not
substituted with the fragment index — `str.format` raises `KeyError` on
it (the source's keyword is `SLICE_ID`), so the dispatcher fails where
the claim promises the index. -/
theorem slicecap_C5_counterexample :
    Slicecap.build_subcmd ["cat", "{FRAGMENT_INDEX}"] 100 50 0 = none ∧
    Slicecap.build_subcmd ["cat", "{SLICE_ID}"] 100 50 0 = some "cat 0" :=
  ⟨rfl, rfl⟩

/-- C5 amended: the dispatcher substitutes the placeholders `OFFSET`,
`SIZE` and `SLICE_ID` (in braces) with the fragment's decimal byte
offset, decimal byte length and decimal zero-based index, leaves
brace-free tokens unchanged, and joins the tokens with single spaces. -/
theorem slicecap_C5_amended (off : Nat) (sz : Int) (sliceId : Nat) :
    Slicecap.build_subcmd ["cp", "{OFFSET}", "{SIZE}", "{SLICE_ID}"] off sz sliceId =
      some (String.intercalate " " ["cp", toString off, toString sz, toString sliceId]) ∧
    (∀ w : String, (∀ c ∈ w.data, c ≠ openBrace ∧ c ≠ closeBrace) →
      Slicecap.strFormat off sz sliceId w = some w) ∧
    Slicecap.strFormat 7 (-2) 5 "of={OFFSET},sz={SIZE},id={SLICE_ID}" =
      some "of=7,sz=-2,id=5" := by
  have hpass : ∀ w : String, (∀ c ∈ w.data, c ≠ openBrace ∧ c ≠ closeBrace) →
      Slicecap.strFormat off sz sliceId w = some w := by
    intro w hw
    unfold Slicecap.strFormat
    rw [formatAux_passthrough off sz sliceId w.data (w.data.length + 1) (by omega) hw]
    rfl
  have hOFF : Slicecap.strFormat off sz sliceId "{OFFSET}" = some (toString off) := by
    unfold Slicecap.strFormat
    rw [show formatAux off sz sliceId ("{OFFSET}".data.length + 1) "{OFFSET}".data =
          some ((toString off).data ++ []) from rfl]
    rw [List.append_nil]
    rfl
  have hSIZE : Slicecap.strFormat off sz sliceId "{SIZE}" = some (toString sz) := by
    unfold Slicecap.strFormat
    rw [show formatAux off sz sliceId ("{SIZE}".data.length + 1) "{SIZE}".data =
          some ((toString sz).data ++ []) from rfl]
    rw [List.append_nil]
    rfl
  have hID : Slicecap.strFormat off sz sliceId "{SLICE_ID}" = some (toString sliceId) := by
    unfold Slicecap.strFormat
    rw [show formatAux off sz sliceId ("{SLICE_ID}".data.length + 1) "{SLICE_ID}".data =
          some ((toString sliceId).data ++ []) from rfl]
    rw [List.append_nil]
    rfl
  refine ⟨?_, hpass, rfl⟩
  have hcp : Slicecap.strFormat off sz sliceId "cp" = some "cp" :=
    hpass "cp" (by decide)
  simp only [Slicecap.build_subcmd, List.mapM_cons, List.mapM_nil, hcp, hOFF, hSIZE, hID]
  rfl

/-- The size list has one entry per offset. -/
theorem sizesFrom_length (total : Nat) :
    ∀ offs : List Nat, (Slicecap.sizesFrom total offs).length = offs.length := by
  intro offs
  induction offs with
  | nil => rfl
  | cons a rest ih =>
    cases rest with
    | nil => rfl
    | cons b rest2 =>
      simp only [Slicecap.sizesFrom, List.length_cons] at ih ⊢
      omega

/-- Every size but the last is the difference of consecutive offsets. -/
theorem sizesFrom_getD (total : Nat) :
    ∀ (offs : List Nat) (i : Nat), i + 1 < offs.length →
    (Slicecap.sizesFrom total offs).getD i 0 =
      (offs.getD (i + 1) 0 : Int) - (offs.getD i 0 : Int) := by
  intro offs
  induction offs with
  | nil =>
    intro i hi
    simp at hi
  | cons a rest ih =>
    intro i hi
    cases rest with
    | nil =>
      simp at hi
    | cons b rest2 =>
      cases i with
      | zero => rfl
      | succ i' =>
        have := ih i' (by simp only [List.length_cons] at hi ⊢; omega)
        simpa [Slicecap.sizesFrom] using this

/-- The last size is the remaining tail of the file. -/
theorem sizesFrom_last (total : Nat) :
    ∀ offs : List Nat, offs ≠ [] →
    (Slicecap.sizesFrom total offs).getD (offs.length - 1) 0 =
      (total : Int) - (offs.getD (offs.length - 1) 0 : Int) := by
  intro offs
  induction offs with
  | nil =>
    intro hne
    exact absurd rfl hne
  | cons a rest ih =>
    intro _
    cases rest with
    | nil => rfl
    | cons b rest2 =>
      have := ih (by simp)
      simpa [Slicecap.sizesFrom] using this

/-- The sizes telescope: they sum to the file size minus the first
offset. -/
theorem sizesFrom_sum (total : Nat) :
    ∀ offs : List Nat, offs ≠ [] →
    (Slicecap.sizesFrom total offs).sum = (total : Int) - (offs.headD 0 : Int) := by
  intro offs
  induction offs with
  | nil =>
    intro hne
    exact absurd rfl hne
  | cons a rest ih =>
    intro _
    cases rest with
    | nil => simp [Slicecap.sizesFrom]
    | cons b rest2 =>
      have := ih (by simp)
      simp only [Slicecap.sizesFrom, List.sum_cons, this]
      simp only [List.headD_cons]
      omega

/-- C3 amended: whenever the planner completes, it produces exactly `n`
offsets and `n` sizes, the offsets are the boundary locator's results
invoked strictly in index order at guesses `i * (size / n)` with the
anchor threaded through (`PlanChain`), each size but the last is the
difference of consecutive offsets, the last size is the remaining tail,
and the sizes sum to the file size minus the first offset.  (The claim's
further assertion that the offsets are strictly increasing is refuted by
`cexFile`.) -/
theorem slicecap_C3_amended (fh : PcapFileHeader) (mg : Int) (file : List Nat)
    (n : Nat) (anc0 : Nat × Nat) (offs : List Nat) (szs : List Int)
    (hn : 1 ≤ n)
    (hok : Slicecap.guess_slice_offsets_and_sizes fh mg file n anc0 = .ok (offs, szs)) :
    offs.length = n ∧ szs.length = n ∧
    (∃ ancF, PlanChain fh mg file (file.length / n) 0 anc0 offs ancF) ∧
    (∀ i, i + 1 < n → szs.getD i 0 =
      (offs.getD (i + 1) 0 : Int) - (offs.getD i 0 : Int)) ∧
    szs.getD (n - 1) 0 = (file.length : Int) - (offs.getD (n - 1) 0 : Int) ∧
    szs.sum = (file.length : Int) - (offs.headD 0 : Int) := by
  simp only [Slicecap.guess_slice_offsets_and_sizes] at hok
  rcases hl : Slicecap.guessLoop fh mg file (file.length / n) n 0 anc0 with e | r
  · rw [hl] at hok
    exact absurd hok (by simp)
  · rw [hl] at hok
    rcases r with ⟨offs2, ancF⟩
    dsimp only at hok
    cases offs2 with
    | nil => exact absurd hok (by simp)
    | cons o rest =>
      rw [Except.ok.injEq, Prod.mk.injEq] at hok
      obtain ⟨ho, hs⟩ := hok
      subst ho
      subst hs
      have hlen := guessLoop_length fh mg file (file.length / n) n 0 anc0
        (o :: rest) ancF hl
      refine ⟨hlen, by rw [sizesFrom_length]; exact hlen,
        ⟨ancF, guessLoop_chain fh mg file (file.length / n) n 0 anc0 (o :: rest) ancF hl⟩,
        ?_, ?_, ?_⟩
      · intro i hi
        exact sizesFrom_getD file.length (o :: rest) i (by omega)
      · rw [← hlen]
        exact sizesFrom_last file.length (o :: rest) (by simp)
      · exact sizesFrom_sum file.length (o :: rest) (by simp)

/-- C3 counterexample: `cexFile` decodes with the expected header, seeds
the anchor from its first record, contains three structurally valid
records spaced far within maxgap of each other, and the planner with
`n = 3` succeeds — yet the produced offsets `[24, 204, 184]` are not
strictly increasing (the middle size is even negative). -/
theorem slicecap_C3_counterexample :
    Slicecap.unpack_file_header cexFile = .ok (cexHeader, (1000, 0)) ∧
    cexHeader.byte_order = .little ∧ cexHeader.snaplen = 200 ∧
    3 ≤ recordChainCount cexFile .little 200 3600 ∧
    Slicecap.plan cexFile 3 3600 = .ok ([24, 204, 184], [180, -20, 88]) ∧
    ¬ List.Chain' (· < ·) ([24, 204, 184] : List Nat) := by
  have hcount : recordChainCount cexFile .little 200 3600 = 3 := rfl
  refine ⟨rfl, rfl, rfl, by omega, rfl, ?_⟩
  intro hchain
  rw [List.chain'_cons, List.chain'_cons] at hchain
  omega

/-- Concrete instantiation of the amended planner claim on the concrete
capture with `n = 3`. -/
theorem slicecap_C3_amended_witness :
    ([24, 204, 184] : List Nat).length = 3 ∧ ([180, -20, 88] : List Int).length = 3 ∧
    (∃ ancF, PlanChain cexHeader 3600 cexFile (cexFile.length / 3) 0 (1000, 0)
      [24, 204, 184] ancF) ∧
    (∀ i, i + 1 < 3 → ([180, -20, 88] : List Int).getD i 0 =
      (([24, 204, 184] : List Nat).getD (i + 1) 0 : Int) -
        (([24, 204, 184] : List Nat).getD i 0 : Int)) ∧
    ([180, -20, 88] : List Int).getD (3 - 1) 0 =
      (cexFile.length : Int) - (([24, 204, 184] : List Nat).getD (3 - 1) 0 : Int) ∧
    ([180, -20, 88] : List Int).sum =
      (cexFile.length : Int) - (([24, 204, 184] : List Nat).headD 0 : Int) :=
  slicecap_C3_amended cexHeader 3600 cexFile 3 (1000, 0) [24, 204, 184] [180, -20, 88]
    (by omega) rfl

/-- Concrete instantiation of the amended substitution claim: offset 100,
size 50, index 2, plus a brace-free token passing through unchanged. -/
theorem slicecap_C5_amended_witness :
    Slicecap.build_subcmd ["cp", "{OFFSET}", "{SIZE}", "{SLICE_ID}"] 100 50 2 =
      some (String.intercalate " "
        ["cp", toString (100 : Nat), toString (50 : Int), toString (2 : Nat)]) ∧
    Slicecap.strFormat 100 50 2 "dump.pcap" = some "dump.pcap" :=
  ⟨(slicecap_C5_amended 100 50 2).1,
   (slicecap_C5_amended 100 50 2).2.1 "dump.pcap" (by decide)⟩
